import Mathlib

set_option autoImplicit false

/-!
Shallow embedding of the client-side logic of the `amazon-autopilot`
frontend (React/TypeScript), covering:

* the Products page CSV export (`handleExport` / `exportColumns`) and
  CSV/JSON import (`parseImportedData`, `createPayload`) in
  `frontend/src/components/AppSidebar.tsx`;
* the form validation of the add-product dialog (`validateForm` /
  `handleCreateListing`) in the same file;
* the generic API client (`apiRequest`, `ApiError`) in
  `frontend/src/lib/api.ts`;
* the Research page ASIN search (`handleSearch`);
* the Blacklist page (`loadBlacklist`, `handleAddEntries` and the three
  add handlers);
* the Dashboard statistics (`loadDashboardData`).

JavaScript strings are modelled as Lean `String`s, with the string
operations used by the code (trim, split, the two regular expressions of
`parseImportedData`, `replace`) implemented explicitly on character
lists.  JavaScript numbers are modelled as `Int` (the code only ever
moves them between JSON and text; no float arithmetic is specified).
JSON values are modelled by the inductive type `JVal`; the browser
primitive `JSON.parse` is not part of the repository, so functions that
call it take the parser as an explicit parameter, constrained only by
the grammar fact that a successful JSON parse starts with one of the
characters `{ [ " - 0..9 t f n` (`jsonSane`).
-/

namespace AmazonAutopilot

/-- JSON values (the result of `JSON.parse`).  Numbers are modelled as
integers; `undefined` is represented externally by `Option.none`. -/
inductive JVal where
  | null : JVal
  | bool (b : Bool) : JVal
  | num (n : Int) : JVal
  | str (s : String) : JVal
  | arr (l : List JVal) : JVal
  | obj (l : List (String × JVal)) : JVal

/-- JavaScript truthiness of a JSON value: `null`, `false`, `0` and the
empty string are falsy; arrays and objects are always truthy. -/
def jsTruthy : JVal → Bool
  | .null => false
  | .bool b => b
  | .num n => n != 0
  | .str s => s != ""
  | .arr _ => true
  | .obj _ => true

/-- Truthiness of a possibly-`undefined` value (`none` = `undefined`). -/
def jsTruthyOpt : Option JVal → Bool
  | none => false
  | some v => jsTruthy v

/-- Property access `o[k]` on a JSON object: first matching key, `none`
(`undefined`) when the value is not an object or the key is missing. -/
def getField (v : JVal) (k : String) : Option JVal :=
  match v with
  | .obj l =>
    match l.find? (fun p => p.1 == k) with
    | some p => some p.2
    | none => none
  | _ => none

/-- The JavaScript nullish-coalescing operator `a ?? b` (with `none`
standing for `undefined`). -/
def jsNullish (a b : Option JVal) : Option JVal :=
  match a with
  | none => b
  | some .null => b
  | some v => some v

/-- Element coercion used by `Array.prototype.join`: `null` and
`undefined` become the empty string, nested arrays join with `","`. -/
def jsJoinElem : JVal → String
  | .null => ""
  | .bool b => if b then "true" else "false"
  | .num n => toString n
  | .str s => s
  | .arr l => String.intercalate "," (l.attach.map (fun x => jsJoinElem x.1))
  | .obj _ => "[object Object]"
decreasing_by
  have := List.sizeOf_lt_of_mem x.2
  simp only [JVal.arr.sizeOf_spec]
  omega

/-- The coercion `String(v)` of a JSON value (as used by the `Error`
constructor and template literals); it differs from the join coercion
only on `null`. -/
def jsToStringVal : JVal → String
  | .null => "null"
  | .bool b => if b then "true" else "false"
  | .num n => toString n
  | .str s => s
  | .arr l => jsJoinElem (.arr l)
  | .obj _ => "[object Object]"

/-- The characters that a JavaScript regular expression class `\s`
matches at (restricted to the code points these sources can contain). -/
def jsWhitespaceChar (c : Char) : Bool :=
  c == ' ' || c == '\t' || c == '\n' || c == '\r' ||
  c == '\x0b' || c == '\x0c' || c == '\u00A0' || c == '\uFEFF'

/-- `String.prototype.trim`, on character lists. -/
def jsTrimList (l : List Char) : List Char :=
  ((l.dropWhile jsWhitespaceChar).reverse.dropWhile jsWhitespaceChar).reverse

/-- `String.prototype.trim`. -/
def jsTrimStr (s : String) : String :=
  ⟨jsTrimList s.data⟩

/-- Interleave a separator between character lists (the core of
`Array.prototype.join`). -/
def joinData (sep : List Char) : List (List Char) → List Char
  | [] => []
  | [x] => x
  | x :: y :: xs => x ++ sep ++ joinData sep (y :: xs)

/-- `Array.prototype.join(sep)` on strings. -/
def jsJoin (sep : String) (l : List String) : String :=
  ⟨joinData sep.data (l.map String.data)⟩

/-- A successful `JSON.parse` can only start (after JSON whitespace)
with one of these characters. -/
def jsonLeadChars : List Char :=
  ['{', '[', '"', '-', '0', '1', '2', '3', '4', '5', '6', '7', '8', '9',
   't', 'f', 'n']

/-- Whether the string could possibly be accepted by `JSON.parse`. -/
def jsonLeadOk (s : String) : Bool :=
  match s.data.dropWhile (fun c => c == ' ' || c == '\t' || c == '\n' || c == '\r') with
  | [] => false
  | c :: _ => jsonLeadChars.contains c

/-- Soundness assumption on a model of the browser primitive
`JSON.parse` (`none` = the parse threw): it only succeeds on texts whose
first non-whitespace character can begin a JSON value. -/
def jsonSane (jp : String → Option JVal) : Prop :=
  ∀ s v, jp s = some v → jsonLeadOk s = true

/-- `text.split(/\r?\n/)`: a `"\r\n"` pair is one separator, a bare
`'\n'` is a separator, a bare `'\r'` is ordinary content. -/
def splitRNL : List Char → List (List Char)
  | [] => [[]]
  | [c] => if c == '\n' then [[], []] else [[c]]
  | c :: c2 :: rest =>
    if c == '\n' then [] :: splitRNL (c2 :: rest)
    else if c == '\r' && c2 == '\n' then [] :: splitRNL rest
    else
      match splitRNL (c2 :: rest) with
      | [] => [[c]]
      | h :: t => (c :: h) :: t

/-- `line.split(",")`. -/
def splitComma : List Char → List (List Char)
  | [] => [[]]
  | ',' :: rest => [] :: splitComma rest
  | c :: rest =>
    match splitComma rest with
    | [] => [[c]]
    | h :: t => (c :: h) :: t

/-- `text.split(/\r?\n|,|、/)` (the bulk-keyword separator of the
Blacklist page). -/
def splitKeywordSeps : List Char → List (List Char)
  | [] => [[]]
  | '\r' :: '\n' :: rest => [] :: splitKeywordSeps rest
  | '\n' :: rest => [] :: splitKeywordSeps rest
  | ',' :: rest => [] :: splitKeywordSeps rest
  | '、' :: rest => [] :: splitKeywordSeps rest
  | c :: rest =>
    match splitKeywordSeps rest with
    | [] => [[c]]
    | h :: t => (c :: h) :: t

/-- `v.replace(/^"|"$/g, "")`: drop one leading and one trailing double
quote (a single-character `"` is only dropped once). -/
def stripOuter (l : List Char) : List Char :=
  let l1 := match l with
    | '"' :: rest => rest
    | _ => l
  if l1.getLast? == some '"' then l1.dropLast else l1

/-- `v.replace(/""/g, '"')`: collapse doubled quotes left to right. -/
def undouble : List Char → List Char
  | [] => []
  | [c] => [c]
  | c1 :: c2 :: rest =>
    if c1 == '"' && c2 == '"' then '"' :: undouble rest
    else c1 :: undouble (c2 :: rest)

/-- `String(value).replace(/"/g, '""')`: double every double quote. -/
def doubleQ (l : List Char) : List Char :=
  (l.map (fun c => if c == '"' then ['"', '"'] else [c])).flatten

/-- The lookahead `(?=\s*,|\s*$)` of the CSV field regular expression:
after optional whitespace the rest is a comma or the end of the line. -/
def lookaheadOk (rest : List Char) : Bool :=
  match rest.dropWhile jsWhitespaceChar with
  | [] => true
  | c :: _ => c == ','

/-- Characters matched by `.` in a JavaScript regular expression
without the `s` flag (everything except line terminators). -/
def isReDot (c : Char) : Bool :=
  !(c == '\n' || c == '\r' || c == '\u2028' || c == '\u2029')

/-- Lazy matching of `".*?"` after an opening quote has been consumed:
`acc` is the body matched so far; each `"` is first tried as the closing
quote (subject to the lookahead) and otherwise swallowed into the body. -/
def tryQuoted (acc : List Char) : List Char → Option (List Char × List Char)
  | [] => none
  | c :: rest =>
    if c == '"' then
      if lookaheadOk rest then some (acc, rest)
      else tryQuoted (acc ++ ['"']) rest
    else if isReDot c then tryQuoted (acc ++ [c]) rest
    else none

/-- Greedy backtracking for `[^",\s]+`: try match lengths from `k` down
to 1 until the lookahead is satisfied. -/
def downFrom (cs : List Char) : Nat → Option (List Char × List Char)
  | 0 => none
  | k + 1 =>
    if lookaheadOk (cs.drop (k + 1)) then some (cs.take (k + 1), cs.drop (k + 1))
    else downFrom cs k

/-- A character the class `[^",\s]` accepts. -/
def unquotChar (c : Char) : Bool :=
  !(c == '"' || c == ',' || jsWhitespaceChar c)

/-- One attempt of the `[^",\s]+(?=\s*,|\s*$)` alternative at the
current position. -/
def tryUnquoted (cs : List Char) : Option (List Char × List Char) :=
  downFrom cs (cs.takeWhile unquotChar).length

/-- Global scan of `/(".*?"|[^",\s]+)(?=\s*,|\s*$)/g`, fuelled (one unit
of fuel per scan step; `matchTokens` supplies enough).  Each match is
returned as matched, including its surrounding quotes. -/
def matchTokensF : Nat → List Char → List (List Char)
  | _, [] => []
  | 0, _ :: _ => []
  | fuel + 1, c :: rest =>
    if c == '"' then
      match tryQuoted [] rest with
      | some (body, after) => ('"' :: (body ++ ['"'])) :: matchTokensF fuel after
      | none => matchTokensF fuel rest
    else if c == ',' || jsWhitespaceChar c then matchTokensF fuel rest
    else
      match tryUnquoted (c :: rest) with
      | some (tok, after) => tok :: matchTokensF fuel after
      | none => matchTokensF fuel rest

/-- `line.match(/(".*?"|[^",\s]+)(?=\s*,|\s*$)/g)` (with `null` mapped
to the empty list, as the code's `?? []` does). -/
def matchTokens (cs : List Char) : List (List Char) :=
  matchTokensF cs.length cs

/-! ## Products page: the `Listing` shape and the CSV export
(`AppSidebar.tsx`, Products component). -/

/-- The normalized `Listing` interface of the Products page.  Fields
declared optional in the TypeScript interface are `Option`s. -/
structure Listing where
  id : String
  asin : String
  title : String
  listing_price : Int
  profit : Option Int
  status : String
  stock_status : Option String
  jp_price : Option Int
  us_price : Option Int

/-- The keys of `exportColumns`, in declaration order. -/
inductive ExportCol where
  | asin | title | listing_price | profit | status | stock_status
  | jp_price | us_price
deriving DecidableEq

/-- `exportColumns.map(column => column.key)`. -/
def exportColKeys : List ExportCol :=
  [.asin, .title, .listing_price, .profit, .status, .stock_status,
   .jp_price, .us_price]

/-- The `label` of each export column. -/
def colLabel : ExportCol → String
  | .asin => "ASIN"
  | .title => "商品名"
  | .listing_price => "出品価格 (JPY)"
  | .profit => "利益 (JPY)"
  | .status => "ステータス"
  | .stock_status => "在庫ステータス"
  | .jp_price => "仕入れ価格 (JPY)"
  | .us_price => "仕入れ価格 (USD)"

/-- `(listing as Record<string, unknown>)[column.key]` (a missing
optional field is `undefined`, i.e. `none`). -/
def colValue (l : Listing) : ExportCol → Option JVal
  | .asin => some (.str l.asin)
  | .title => some (.str l.title)
  | .listing_price => some (.num l.listing_price)
  | .profit => l.profit.map .num
  | .status => some (.str l.status)
  | .stock_status => l.stock_status.map .str
  | .jp_price => l.jp_price.map .num
  | .us_price => l.us_price.map .num

/-- `escapeCsv` of `handleExport`: `null`/`undefined` become `""`,
anything else is stringified, its quotes doubled, and wrapped in
quotes. -/
def escapeCsv : Option JVal → String
  | none => "\"\""
  | some .null => "\"\""
  | some v => ⟨'"' :: (doubleQ (jsToStringVal v).data ++ ['"'])⟩

/-- One exported row: each column's value (missing replaced by `""`
via `value ?? ""`) escaped, joined with commas. -/
def exportRow (l : Listing) : String :=
  jsJoin "," (exportColKeys.map (fun c => escapeCsv (some ((colValue l c).getD (.str "")))))

/-- The exported header row `header.join(",")`. -/
def exportHeader : String :=
  jsJoin "," (exportColKeys.map colLabel)

/-- `csvContent = [header.join(","), ...rows].join("\n")`. -/
def exportCsvContent (ls : List Listing) : String :=
  jsJoin "\n" (exportHeader :: ls.map exportRow)

/-- `handleExport`: `none` when the listing list is empty (the code
toasts and returns without building a CSV); otherwise the downloaded
text `'\ufeff' + csvContent`. -/
def handleExport (ls : List Listing) : Option String :=
  if ls.isEmpty then none
  else some ("\uFEFF" ++ exportCsvContent ls)

/-! ## Products page: `parseImportedData` (CSV/JSON import). -/

/-- The `headerMappings` table, in the code's order. -/
def headerMappings : List (String × String) :=
  [("asin", "asin"), ("ASIN", "asin"), ("title", "title"),
   ("商品名", "title"), ("listing_price", "listing_price"),
   ("listing_pri", "listing_price"),
   ("listing_price (JPY)", "listing_price"),
   ("出品価格", "listing_price"), ("出品価格 (JPY)", "listing_price"),
   ("profit", "profit"), ("利益", "profit"), ("status", "status"),
   ("ステータス", "status"), ("stock_status", "stock_status"),
   ("stock_stat", "stock_status"), ("在庫ステータス", "stock_status"),
   ("jp_price", "jp_price"), ("仕入れ価格 (JPY)", "jp_price"),
   ("us_price", "us_price"), ("仕入れ価格 (USD)", "us_price")]

/-- `headerMappings[cleaned] || cleaned` (every table value is a
non-empty string, so `||` is just lookup-with-default). -/
def mapHeader (cleaned : String) : String :=
  match headerMappings.find? (fun p => p.1 == cleaned) with
  | some p => p.2
  | none => cleaned

/-- Assignment `record[k] = v` on a JavaScript object modelled as an
association list: an existing key keeps its position, a new key is
appended. -/
def setKey : List (String × String) → String → String → List (String × String)
  | [], k, v => [(k, v)]
  | (k', v') :: rest, k, v =>
    if k' == k then (k, v) :: rest else (k', v') :: setKey rest k v

/-- Property read `record[k]` on the association-list model. -/
def lookupRec (r : List (String × String)) (k : String) : Option String :=
  match r.find? (fun p => p.1 == k) with
  | some p => some p.2
  | none => none

/-- `headers.forEach((header, index) => record[header] = values[index] ?? "")`,
walking the headers while consuming the values positionally. -/
def mkRecordAux : List String → List String → List (String × String) → List (String × String)
  | [], _, r => r
  | h :: hs, vs, r => mkRecordAux hs vs.tail (setKey r h (vs.headD ""))

/-- The cleanup applied to each regex match:
`.replace(/^"|"$/g, "").replace(/""/g, '"').trim()`. -/
def cleanupTok (tok : List Char) : String :=
  ⟨jsTrimList (undouble (stripOuter tok))⟩

/-- A parsed CSV record, as the JavaScript object the code builds. -/
def recordToJVal (r : List (String × String)) : JVal :=
  .obj (r.map (fun p => (p.1, .str p.2)))

/-- The data-line loop of `parseImportedData`: a line whose regex match
is `null`/empty is skipped (`continue`), every other line becomes one
record. -/
def csvRecords (headers : List String) (dataLines : List (List Char)) :
    List (List (String × String)) :=
  dataLines.filterMap (fun line =>
    let values := (matchTokens line).map cleanupTok
    if values.isEmpty then none
    else some (mkRecordAux headers values []))

/-- The CSV branch of `parseImportedData` (reached when JSON parsing
fails or yields a primitive): split into non-blank lines, translate the
first line's comma-separated cells through `headerMappings`, then build
one record per surviving data line. -/
def parseCsv (t : String) : List JVal :=
  let lines := (splitRNL t.data).filter (fun l => !(jsTrimList l).isEmpty)
  match lines with
  | [] => []
  | h :: dataLines =>
    let headers := (splitComma h).map (fun hc => mapHeader ⟨jsTrimList (stripOuter hc)⟩)
    (csvRecords headers dataLines).map recordToJVal

/-- `parseImportedData`, parameterized by the `JSON.parse` model `jp`.
An array result is returned as is; `typeof json === "object"` is true
for both objects and `null` in JavaScript, so those both come back as a
one-element list; primitives and parse failures fall through to CSV. -/
def parseImportedData (jp : String → Option JVal) (text : String) : List JVal :=
  let t := jsTrimStr text
  if t.data.isEmpty then []
  else
    match jp t with
    | some (.arr l) => l
    | some (.obj o) => [.obj o]
    | some .null => [.null]
    | _ => parseCsv t

/-! ## `lib/api.ts`: `ApiError` and `apiRequest`. -/

/-- The data carried by a thrown `ApiError`. -/
structure ApiErrorS where
  message : String
  status : Nat
  details : JVal

/-- `a || b` on possibly-`undefined` JavaScript values. -/
def jsOr2 (a b : Option JVal) : Option JVal :=
  if jsTruthyOpt a then a else b

/-- The `errors` half of the message chain:
`Array.isArray(data.errors) ? data.errors.join(', ') : undefined`. -/
def errorsJoined (data : JVal) : Option JVal :=
  match getField data "errors" with
  | some (.arr l) => some (.str (jsJoin ", " (l.map jsJoinElem)))
  | _ => none

/-- The message of the `ApiError` thrown on a non-ok response:
`data.error || (… errors.join(', ') …) || "HTTP error! status: <n>"`,
coerced to a string by the `Error` constructor. -/
def apiErrorMessage (status : Nat) (data : JVal) : String :=
  let fallback : JVal := .str ("HTTP error! status: " ++ toString status)
  jsToStringVal ((jsOr2 (getField data "error")
    (jsOr2 (errorsJoined data) (some fallback))).getD fallback)

/-- `apiRequest`, given the observed response: `ok` flag, status and
parsed JSON body.  Returns the body on an ok response, otherwise the
thrown `ApiError`. -/
def apiRequest (ok : Bool) (status : Nat) (data : JVal) : Except ApiErrorS JVal :=
  if ok then .ok data
  else .error { message := apiErrorMessage status data, status := status, details := data }

/-! ## Research page (`handleSearch`). -/

/-- What one click of the Research search button does. -/
inductive SearchOutcome where
  | errorToast : SearchOutcome
  | request (asin us_asin : String) (exchange_rate : Int) : SearchOutcome

/-- A character of the class `[A-Z0-9]`. -/
def asinChar (c : Char) : Bool :=
  ('A' ≤ c && c ≤ 'Z') || ('0' ≤ c && c ≤ '9')

/-- `/^[A-Z0-9]{10}$/.test(s)`. -/
def asinRegexTest (s : String) : Bool :=
  s.data.length == 10 && s.data.all asinChar

/-- `handleSearch` of the Research page: an empty trimmed input or one
failing the ASIN regex produces an error toast and no request; otherwise
a POST to `/api/compare/us-jp` with `asin` and `us_asin` both the
trimmed input and `exchange_rate: 150.0`. -/
def handleSearch (asin : String) : SearchOutcome :=
  let t := jsTrimStr asin
  if t.data.isEmpty then .errorToast
  else if !asinRegexTest t then .errorToast
  else .request t t 150

/-! ## Blacklist page (`loadBlacklist`, `handleAddEntries`). -/

/-- A blacklist entry as returned by `GET /blacklist`. -/
structure BlacklistEntry where
  entry_id : String
  value : String
  reason : Option String
  severity : Option String
  entry_type : String

/-- The page-local shape `{id, value, reason, severity, type}`. -/
structure BlacklistEntryItem where
  id : String
  value : String
  reason : Option String
  severity : Option String
  type : String

/-- `toEntry` of `loadBlacklist`. -/
def toEntry (e : BlacklistEntry) : BlacklistEntryItem :=
  { id := e.entry_id, value := e.value, reason := e.reason,
    severity := e.severity, type := e.entry_type }

/-- The `BlacklistState` kept by the page. -/
structure BlacklistState where
  asins : List BlacklistEntryItem
  brands : List BlacklistEntryItem
  keywords : List BlacklistEntryItem

/-- The `transformed` state `loadBlacklist` builds from the returned
entries. -/
def loadBlacklistTransform (entries : List BlacklistEntry) : BlacklistState :=
  { asins := (entries.filter (fun e => e.entry_type == "asin")).map toEntry,
    brands := (entries.filter (fun e =>
      e.entry_type == "brand" || e.entry_type == "manufacturer")).map toEntry,
    keywords := (entries.filter (fun e => e.entry_type == "keyword")).map toEntry }

/-- The union type `'asin' | 'brand' | 'keyword'` of `handleAddEntries`. -/
inductive EntryKind where
  | asin | brand | keyword
deriving DecidableEq

/-- The serialized `type` string of an entry kind. -/
def kindStr : EntryKind → String
  | .asin => "asin"
  | .brand => "brand"
  | .keyword => "keyword"

/-- The `defaultReasons` table. -/
def defaultReason : EntryKind → String
  | .asin => "手動で登録されたASIN"
  | .brand => "手動で登録されたブランド"
  | .keyword => "手動で登録されたキーワード"

/-- One `blacklistApi.create` request body. -/
structure BlacklistCreateReq where
  type : String
  value : String
  reason : String
  severity : String
deriving DecidableEq

/-- What one click of an add button does. -/
inductive AddOutcome where
  | errorToast : AddOutcome
  | requests (l : List BlacklistCreateReq) : AddOutcome
deriving DecidableEq

/-- `handleAddEntries`: trim every value, drop the empty ones; nothing
left means an error toast and no request, otherwise one create request
per remaining value (severity `medium` for keywords, `high` otherwise,
reason from `defaultReasons`). -/
def handleAddEntries (type : EntryKind) (values : List String) : AddOutcome :=
  let cleaned := (values.map jsTrimStr).filter (fun v => v.data.length != 0)
  if cleaned.isEmpty then .errorToast
  else .requests (cleaned.map (fun v =>
    { type := kindStr type, value := v, reason := defaultReason type,
      severity := if type = .keyword then "medium" else "high" }))

/-- `s.toUpperCase()` (ASCII; these inputs are ASINs). -/
def jsToUpper (s : String) : String :=
  ⟨s.data.map Char.toUpper⟩

/-- `handleAddAsin`. -/
def handleAddAsin (newAsin : String) : AddOutcome :=
  handleAddEntries .asin [jsToUpper newAsin]

/-- `handleAddBrand`. -/
def handleAddBrand (newBrand : String) : AddOutcome :=
  handleAddEntries .brand [newBrand]

/-- `handleAddKeywords`: the textarea content split on
`/\r?\n|,|、/`. -/
def handleAddKeywords (newKeyword : String) : AddOutcome :=
  handleAddEntries .keyword ((splitKeywordSeps newKeyword.data).map (fun l => (⟨l⟩ : String)))

/-! ## Dashboard (`loadDashboardData`). -/

/-- A raw listing as consumed by the Dashboard statistics (only the
fields the computation reads). -/
structure RawListing where
  status : Option String
  stock_status : Option String
  revenue : Option Int
  profit : Option Int

/-- `x || 0` on a possibly-missing numeric field. -/
def jsOrZero : Option Int → Int
  | none => 0
  | some n => if n != 0 then n else 0

/-- The `stats` record of the Dashboard. -/
structure DashboardStats where
  activeListings : Nat
  totalRevenue : Int
  totalProfit : Int
  outOfStock : Nat

/-- The statistics `loadDashboardData` computes from a successful
listings response. -/
def loadDashboardStats (listings : List RawListing) : DashboardStats :=
  { activeListings := (listings.filter (fun l => l.status == some "active")).length,
    totalRevenue := listings.foldl (fun sum l => sum + jsOrZero l.revenue) 0,
    totalProfit := listings.foldl (fun sum l => sum + jsOrZero l.profit) 0,
    outOfStock := (listings.filter (fun l => l.stock_status == some "out_of_stock")).length }

/-! ## Products page: add-product dialog (`validateForm`,
`handleCreateListing`) and import payloads (`createPayload`). -/

/-- The `ListingFormData` of the add-product dialog. -/
structure ListingFormData where
  asin : String
  jp_asin : String
  us_asin : String
  title : String
  listing_price : String
  jp_price : String
  us_price : String
  category : String
  manufacturer : String
  source_url : String
  minimum_profit_threshold : String

/-- `validateForm`: one error message per missing required field. -/
def validateForm (fd : ListingFormData) : List (String × String) :=
  (if (jsTrimStr fd.asin).data.isEmpty then [("asin", "ASINは必須です")] else []) ++
  (if (jsTrimStr fd.title).data.isEmpty then [("title", "商品名は必須です")] else []) ++
  (if (jsTrimStr fd.listing_price).data.isEmpty then [("listing_price", "出品価格は必須です")] else [])

/-- `Number(s)` on a string: whitespace-only is `0`, otherwise the
decimal integer value, `none` for `NaN` (the inputs here are numeric
form fields; non-integer syntax is out of scope and maps to `NaN`). -/
def jsNumber (s : String) : Option Int :=
  let t := jsTrimStr s
  if t.data.isEmpty then some 0 else t.toInt?

/-- `Number(s) || d`. -/
def jsNumberOr (s : String) (d : Int) : Int :=
  match jsNumber s with
  | none => d
  | some n => if n != 0 then n else d

/-- `Number(v)` on a JSON value (`none` = `NaN`; arrays and objects are
not produced by these forms and map to `NaN`). -/
def jsNumberOfJVal : JVal → Option Int
  | .null => some 0
  | .bool b => some (if b then 1 else 0)
  | .num n => some n
  | .str s => jsNumber s
  | .arr _ => none
  | .obj _ => none

/-- `Number(v) || d` for a possibly-`undefined` JSON value
(`Number(undefined)` is `NaN`). -/
def jsNumOr (v : Option JVal) (d : Int) : Int :=
  match v with
  | none => d
  | some x =>
    match jsNumberOfJVal x with
    | none => d
    | some n => if n != 0 then n else d

/-- The POST body built for `listingsApi.create`. -/
structure CreatePayload where
  asin : String
  jp_asin : String
  us_asin : Option String
  title : String
  listing_price : Int
  jp_price : Int
  us_price : Int
  category : Option String
  manufacturer : Option String
  source_url : Option String
  minimum_profit_threshold : Int
  validate : Bool

/-- `t || undefined` after trimming a form field. -/
def trimOrUndef (s : String) : Option String :=
  let t := jsTrimStr s
  if t.data.isEmpty then none else some t

/-- What one submit of the add-product dialog does. -/
inductive CreateOutcome where
  | fieldErrors (errs : List (String × String)) : CreateOutcome
  | request (payload : CreatePayload) : CreateOutcome

/-- `handleCreateListing`: record the validation errors when any are
present, otherwise send the create request built from the trimmed
form. -/
def handleCreateListing (fd : ListingFormData) : CreateOutcome :=
  let errors := validateForm fd
  if !errors.isEmpty then .fieldErrors errors
  else .request
    { asin := jsTrimStr fd.asin,
      jp_asin := (let j := jsTrimStr fd.jp_asin;
        if j.data.isEmpty then jsTrimStr fd.asin else j),
      us_asin := trimOrUndef fd.us_asin,
      title := jsTrimStr fd.title,
      listing_price := jsNumberOr fd.listing_price 0,
      jp_price := jsNumberOr fd.jp_price 0,
      us_price := jsNumberOr fd.us_price 0,
      category := trimOrUndef fd.category,
      manufacturer := trimOrUndef fd.manufacturer,
      source_url := trimOrUndef fd.source_url,
      minimum_profit_threshold := jsNumberOr fd.minimum_profit_threshold 3000,
      validate := true }

/-- `record.k?.trim()` for an imported record: `undefined` when the
field is absent, `null` or `undefined`; the trimmed string when it is a
string.  (On a non-string, non-null value the real code would throw
inside `.trim()`; such records are excluded by `wellTypedRecord`.) -/
def optTrimField (r : JVal) (k : String) : Option String :=
  match getField r k with
  | some (.str s) => some (jsTrimStr s)
  | _ => none

/-- The fields `createPayload` calls `?.trim()` on must be absent,
`null` or strings for the code not to throw. -/
def wellTypedRecord (r : JVal) : Prop :=
  ∀ k ∈ ["asin", "title", "jp_asin", "us_asin", "category",
         "manufacturer", "source_url", "sourceUrl"],
    getField r k = none ∨ getField r k = some .null ∨
      ∃ s, getField r k = some (.str s)

/-- `record.listing_price ?? record.listingPrice`. -/
def importListingPrice (r : JVal) : Option JVal :=
  jsNullish (getField r "listing_price") (getField r "listingPrice")

/-- `x !== 0` can only fail on the number `0` itself. -/
def isNumZero : Option JVal → Bool
  | some (.num n) => n == 0
  | _ => false

/-- `createPayload` of `handleImportFile`: `none` when
`!asin || !title || (!listingPrice && listingPrice !== 0)`, otherwise
the create body. -/
def createPayload (r : JVal) : Option CreatePayload :=
  let asin := optTrimField r "asin"
  let title := optTrimField r "title"
  let listingPrice := importListingPrice r
  if asin.getD "" == "" || title.getD "" == "" ||
      (!jsTruthyOpt listingPrice && !isNumZero listingPrice) then none
  else some
    { asin := asin.getD "",
      jp_asin := (match optTrimField r "jp_asin" with
        | some j => if j.data.isEmpty then asin.getD "" else j
        | none => asin.getD ""),
      us_asin := (match optTrimField r "us_asin" with
        | some u => if u.data.isEmpty then none else some u
        | none => none),
      title := title.getD "",
      listing_price := jsNumOr listingPrice 0,
      jp_price := jsNumOr (jsNullish (getField r "jp_price") (getField r "jpPrice")) 0,
      us_price := jsNumOr (jsNullish (getField r "us_price") (getField r "usPrice")) 0,
      category := (match optTrimField r "category" with
        | some c => if c.data.isEmpty then none else some c
        | none => none),
      manufacturer := (match optTrimField r "manufacturer" with
        | some m => if m.data.isEmpty then none else some m
        | none => none),
      source_url := (match optTrimField r "source_url" with
        | some u => if u.data.isEmpty then
            (match optTrimField r "sourceUrl" with
             | some u2 => if u2.data.isEmpty then none else some u2
             | none => none)
          else some u
        | none =>
          (match optTrimField r "sourceUrl" with
           | some u2 => if u2.data.isEmpty then none else some u2
           | none => none)),
      minimum_profit_threshold :=
        jsNumOr (jsNullish (getField r "minimum_profit_threshold")
          (getField r "minimumProfitThreshold")) 3000,
      validate := true }

/-! ## Definitions used to state C1 and C2 (export/import round
trip). -/

/-- A CSV cell as the spec describes it: the field value wrapped in
double quotes with interior quotes doubled; `null`, `undefined` or a
missing field becomes `""`. -/
def specCsvCell (v : Option JVal) : String :=
  match v with
  | none => "\"\""
  | some .null => "\"\""
  | some w => "\"" ++ (⟨doubleQ (jsToStringVal w).data⟩ : String) ++ "\""

/-- The Products CSV exactly as the spec describes it: a BOM, the eight
column labels joined by commas, then one row per listing in list order,
all joined by single newlines. -/
def specProductsCsv (ls : List Listing) : String :=
  "\uFEFF" ++ jsJoin "\n"
    ((jsJoin "," ["ASIN", "商品名", "出品価格 (JPY)", "利益 (JPY)", "ステータス",
        "在庫ステータス", "仕入れ価格 (JPY)", "仕入れ価格 (USD)"]) ::
      ls.map (fun l => jsJoin "," (exportColKeys.map (fun c => specCsvCell (colValue l c)))))

/-- A sane `JSON.parse` model that accepts exactly the text `null` (as
the browser's does). -/
def jpNull : String → Option JVal :=
  fun s => if s = "null" then some .null else none

/-- The raw string a column renders to in the export (the argument of
`escapeCsv` after `value ?? ""`). -/
def cellString (l : Listing) (c : ExportCol) : String :=
  jsToStringVal ((colValue l c).getD (.str ""))

/-- The key under which `parseImportedData` stores each exported
column when reading the export back: the mapping table translates every
label except `利益 (JPY)`, which is missing from it and survives
verbatim. -/
def importedKey : ExportCol → String
  | .asin => "asin"
  | .title => "title"
  | .listing_price => "listing_price"
  | .profit => "利益 (JPY)"
  | .status => "status"
  | .stock_status => "stock_status"
  | .jp_price => "jp_price"
  | .us_price => "us_price"

/-- The record the import of one exported row is expected to produce. -/
def expectedRecord (l : Listing) : List (String × String) :=
  exportColKeys.map (fun c => (importedKey c, cellString l c))

/-- A quoted CSV cell, at the character level. -/
def quoteData (d : List Char) : List Char :=
  '"' :: (d ++ ['"'])

/-- A cell value that survives the import regular expression and
cleanup untouched: no double quote, every character matched by `.`
(no line terminators), and invariant under `trim`. -/
def cleanCell (s : String) : Prop :=
  (∀ c ∈ s.data, isReDot c = true ∧ c ≠ '"') ∧ jsTrimList s.data = s.data

/-- Decidability of `cleanCell`, so witnesses can evaluate it. -/
instance (s : String) : Decidable (cleanCell s) := by
  unfold cleanCell
  infer_instance

/-! ## Theorems for the claims. -/

/-- C5: on the Research page, `handleSearch` sends the POST to
`/api/compare/us-jp` exactly when the trimmed ASIN input matches
`^[A-Z0-9]{10}$` (ten characters, each an uppercase letter or digit);
any other input (including empty/whitespace-only) only shows an error
toast; when the request is sent, `asin` and `us_asin` are both the
trimmed input and `exchange_rate` is `150.0`. -/
theorem claim_C5_research_asin_gate (input : String) :
    (handleSearch input = .request (jsTrimStr input) (jsTrimStr input) 150 ↔
      asinRegexTest (jsTrimStr input) = true) ∧
    (asinRegexTest (jsTrimStr input) = false → handleSearch input = .errorToast) ∧
    (asinRegexTest (jsTrimStr input) = true ↔
      (jsTrimStr input).data.length = 10 ∧
        ∀ c ∈ (jsTrimStr input).data, ('A' ≤ c ∧ c ≤ 'Z') ∨ ('0' ≤ c ∧ c ≤ '9')) := by
  refine ⟨?_, ?_, ?_⟩
  · cases hE : (jsTrimStr input).data.isEmpty with
    | true =>
      have hlen : (jsTrimStr input).data = [] := by
        simpa [List.isEmpty_iff] using hE
      simp [handleSearch, hE, asinRegexTest, hlen]
    | false =>
      cases hR : asinRegexTest (jsTrimStr input) with
      | true => simp [handleSearch, hE, hR]
      | false => simp [handleSearch, hE, hR]
  · intro hR
    cases hE : (jsTrimStr input).data.isEmpty with
    | true => simp [handleSearch, hE]
    | false => simp [handleSearch, hE, hR]
  · simp only [asinRegexTest, Bool.and_eq_true, beq_iff_eq, List.all_eq_true, asinChar,
      Bool.or_eq_true, decide_eq_true_eq]

/-- Witness for C5 at the concrete valid ASIN `B08N5WRWNW`. -/
theorem claim_C5_witness :
    handleSearch "B08N5WRWNW" = .request "B08N5WRWNW" "B08N5WRWNW" 150 :=
  (claim_C5_research_asin_gate "B08N5WRWNW").1.mpr (by decide)

/-- C7: after `loadBlacklist` succeeds, `asins` holds exactly the
entries whose `entry_type` is `asin`, `brands` exactly those of type
`brand` or `manufacturer`, `keywords` exactly those of type `keyword`
(each reshaped by `toEntry`, with `id` from `entry_id` and `type` from
`entry_type`, in response order), and an entry of any other type is in
none of the three lists. -/
theorem claim_C7_blacklist_partition (entries : List BlacklistEntry) :
    (∀ x, x ∈ (loadBlacklistTransform entries).asins ↔
      ∃ e ∈ entries, e.entry_type = "asin" ∧ x = toEntry e) ∧
    (∀ x, x ∈ (loadBlacklistTransform entries).brands ↔
      ∃ e ∈ entries, (e.entry_type = "brand" ∨ e.entry_type = "manufacturer") ∧
        x = toEntry e) ∧
    (∀ x, x ∈ (loadBlacklistTransform entries).keywords ↔
      ∃ e ∈ entries, e.entry_type = "keyword" ∧ x = toEntry e) ∧
    (∀ e ∈ entries,
      e.entry_type ∉ (["asin", "brand", "manufacturer", "keyword"] : List String) →
      toEntry e ∉ (loadBlacklistTransform entries).asins ∧
      toEntry e ∉ (loadBlacklistTransform entries).brands ∧
      toEntry e ∉ (loadBlacklistTransform entries).keywords) := by
  have hmem : ∀ (p : BlacklistEntry → Bool) (x : BlacklistEntryItem),
      x ∈ (entries.filter p).map toEntry ↔
        ∃ e ∈ entries, p e = true ∧ x = toEntry e := by
    intro p x
    simp only [List.mem_map, List.mem_filter]
    constructor
    · rintro ⟨e, ⟨he, hp⟩, rfl⟩; exact ⟨e, he, hp, rfl⟩
    · rintro ⟨e, he, hp, rfl⟩; exact ⟨e, ⟨he, hp⟩, rfl⟩
  refine ⟨?_, ?_, ?_, ?_⟩
  · intro x
    simpa only [beq_iff_eq] using hmem (fun e => e.entry_type == "asin") x
  · intro x
    simpa only [Bool.or_eq_true, beq_iff_eq] using
      hmem (fun e => e.entry_type == "brand" || e.entry_type == "manufacturer") x
  · intro x
    simpa only [beq_iff_eq] using hmem (fun e => e.entry_type == "keyword") x
  · intro e _ htype
    simp only [List.mem_cons, List.not_mem_nil, or_false, not_or] at htype
    obtain ⟨h1, h2, h3, h4⟩ := htype
    refine ⟨?_, ?_, ?_⟩ <;>
    · intro hm
      simp only [loadBlacklistTransform] at hm
      rw [hmem] at hm
      obtain ⟨e', _, ht, heq⟩ := hm
      have hty : e.entry_type = e'.entry_type := by
        have := congrArg BlacklistEntryItem.type heq
        simpa [toEntry] using this
      simp only [beq_iff_eq, Bool.or_eq_true] at ht
      try rcases ht with ht | ht
      all_goals simp_all

/-- Witness for C7: an entry of the unlisted type `category` lands in
none of the three lists. -/
theorem claim_C7_witness :
    toEntry ⟨"9", "X", none, none, "category"⟩ ∉
      (loadBlacklistTransform [⟨"9", "X", none, none, "category"⟩]).asins :=
  ((claim_C7_blacklist_partition [⟨"9", "X", none, none, "category"⟩]).2.2.2
    ⟨"9", "X", none, none, "category"⟩ (by simp) (by decide)).1

/-- C8: after `loadDashboardData` succeeds, `activeListings` counts the
listings with `status === 'active'`, `outOfStock` counts those with
`stock_status === 'out_of_stock'`, and `totalRevenue`/`totalProfit` sum
the `revenue`/`profit` fields, a missing field counting as `0`. -/
theorem claim_C8_dashboard_stats (listings : List RawListing) :
    (loadDashboardStats listings).activeListings =
      listings.countP (fun l => l.status == some "active") ∧
    (loadDashboardStats listings).outOfStock =
      listings.countP (fun l => l.stock_status == some "out_of_stock") ∧
    (loadDashboardStats listings).totalRevenue =
      (listings.map (fun l => l.revenue.getD 0)).sum ∧
    (loadDashboardStats listings).totalProfit =
      (listings.map (fun l => l.profit.getD 0)).sum := by
  have horz : ∀ x : Option Int, jsOrZero x = x.getD 0 := by
    intro x
    match x with
    | none => rfl
    | some n =>
      by_cases h : n = 0 <;> simp [jsOrZero, h]
  have hsum : ∀ (f : RawListing → Int) (l : List RawListing) (a : Int),
      l.foldl (fun sum x => sum + f x) a = a + (l.map f).sum := by
    intro f l
    induction l with
    | nil => simp
    | cons x xs ih => intro a; simp [ih, add_assoc]
  refine ⟨?_, ?_, ?_, ?_⟩
  · simp [loadDashboardStats, List.countP_eq_length_filter]
  · simp [loadDashboardStats, List.countP_eq_length_filter]
  · simpa [loadDashboardStats, horz] using hsum (fun l => l.revenue.getD 0) listings 0
  · simpa [loadDashboardStats, horz] using hsum (fun l => l.profit.getD 0) listings 0

/-- C9: the bulk keyword action splits the textarea on newlines, ASCII
commas and Japanese commas, trims and drops empty pieces, and issues one
create request per piece with severity `medium` and the keyword default
reason; single ASIN/brand additions issue one request with severity
`high` (the ASIN uppercased); when every piece trims to empty, no
request is issued and an error toast is shown. -/
theorem claim_C9_blacklist_adds (s : String) :
    (handleAddKeywords s = .errorToast ↔
      ∀ p ∈ splitKeywordSeps s.data, jsTrimList p = []) ∧
    (∀ reqs, handleAddKeywords s = .requests reqs →
      reqs = (((splitKeywordSeps s.data).map (fun p => jsTrimStr ⟨p⟩)).filter
          (fun v => v.data.length != 0)).map (fun v =>
        { type := "keyword", value := v,
          reason := "手動で登録されたキーワード", severity := "medium" })) ∧
    (jsTrimStr (jsToUpper s) ≠ "" →
      handleAddAsin s = .requests
        [{ type := "asin", value := jsTrimStr (jsToUpper s),
           reason := "手動で登録されたASIN", severity := "high" }]) ∧
    (jsTrimStr s ≠ "" →
      handleAddBrand s = .requests
        [{ type := "brand", value := jsTrimStr s,
           reason := "手動で登録されたブランド", severity := "high" }]) := by
  have hstr : ∀ t : String, t.length = 0 → t = "" := by
    intro t h0
    cases t with
    | mk d =>
      cases d with
      | nil => rfl
      | cons a l => simp [String.length] at h0
  have hne : ∀ t : String, t ≠ "" → (t.data.length != 0) = true := by
    intro t ht
    cases hd : t.data with
    | nil =>
      exact absurd (hstr t (by simp [String.length, hd])) ht
    | cons c cs => simp [hd]
  have hml : ∀ L : List (List Char),
      List.map jsTrimStr (L.map (fun l => (⟨l⟩ : String))) =
        L.map (fun p => jsTrimStr ⟨p⟩) := by
    intro L
    rw [List.map_map]
    rfl
  refine ⟨?_, ?_, ?_, ?_⟩
  · constructor
    · intro h p hp
      by_contra hne'
      have hmem : jsTrimStr ⟨p⟩ ∈ ((splitKeywordSeps s.data).map (fun p => jsTrimStr ⟨p⟩)).filter
          (fun v => v.data.length != 0) := by
        refine List.mem_filter.mpr ⟨List.mem_map.mpr ⟨p, hp, rfl⟩, ?_⟩
        have hne2 : jsTrimStr ⟨p⟩ ≠ "" := by
          intro hcon
          exact hne' (congrArg String.data hcon)
        exact hne _ hne2
      have hfil : ¬(((splitKeywordSeps s.data).map (fun p => jsTrimStr ⟨p⟩)).filter
          (fun v => v.data.length != 0)).isEmpty := by
        cases hfe : (((splitKeywordSeps s.data).map (fun p => jsTrimStr ⟨p⟩)).filter
            (fun v => v.data.length != 0)) with
        | nil => simp_all
        | cons a t => simp [hfe]
      simp only [handleAddKeywords, handleAddEntries, hml] at h
      split at h
      · simp_all
      · exact absurd h (by simp)
    · intro h
      simp only [handleAddKeywords, handleAddEntries, hml]
      have hO : ((splitKeywordSeps s.data).map (fun p => jsTrimStr ⟨p⟩)).filter
          (fun v => v.data.length != 0) = [] := by
        rw [List.filter_eq_nil_iff]
        intro v hv
        obtain ⟨p, hp, rfl⟩ := List.mem_map.mp hv
        have := h p hp
        simp [jsTrimStr, this]
      rw [hO]
      simp
  · intro reqs h
    simp only [handleAddKeywords, handleAddEntries, hml] at h
    split at h
    · exact absurd h (by simp)
    · simp only [AddOutcome.requests.injEq] at h
      subst h
      rfl
  · intro h
    have hlen : ¬(jsTrimStr (jsToUpper s)).length = 0 := fun h0 => h (hstr _ h0)
    simp [handleAddAsin, handleAddEntries, hlen, kindStr, defaultReason]
  · intro h
    have hlen : ¬(jsTrimStr s).length = 0 := fun h0 => h (hstr _ h0)
    simp [handleAddBrand, handleAddEntries, hlen, kindStr, defaultReason]

/-- C6 (amended): `apiRequest` returns the parsed body on an ok
response; otherwise it throws an `ApiError` carrying the status and the
body, whose message is the body's `error` field (string-coerced) when
that field is present and truthy, else the `", "`-joined `errors` array
when that field is an array and the join is non-empty, else
`"HTTP error! status: <status>"`.  (The code uses `||`, so a present
but falsy `error` field — e.g. the empty string — is skipped.) -/
theorem claim_C6_api_request (ok : Bool) (status : Nat) (data : JVal) :
    (ok = true → apiRequest ok status data = .ok data) ∧
    (ok = false → apiRequest ok status data =
      .error { message := apiErrorMessage status data, status := status,
               details := data }) ∧
    (∀ e, getField data "error" = some e → jsTruthy e = true →
      apiErrorMessage status data = jsToStringVal e) ∧
    (jsTruthyOpt (getField data "error") = false →
      ∀ l, getField data "errors" = some (.arr l) →
      jsJoin ", " (l.map jsJoinElem) ≠ "" →
      apiErrorMessage status data = jsJoin ", " (l.map jsJoinElem)) ∧
    (jsTruthyOpt (getField data "error") = false →
      jsTruthyOpt (errorsJoined data) = false →
      apiErrorMessage status data = "HTTP error! status: " ++ toString status) := by
  refine ⟨?_, ?_, ?_, ?_, ?_⟩
  · intro h; simp [apiRequest, h]
  · intro h; simp [apiRequest, h]
  · intro e he ht
    simp [apiErrorMessage, jsOr2, jsTruthyOpt, he, ht]
  · intro hf l hl hj
    have hejoined : errorsJoined data = some (.str (jsJoin ", " (l.map jsJoinElem))) := by
      simp [errorsJoined, hl]
    have htr : jsTruthy (.str (jsJoin ", " (l.map jsJoinElem))) = true := by
      simpa [jsTruthy] using hj
    cases he : getField data "error" with
    | none =>
      simp [apiErrorMessage, jsOr2, jsTruthyOpt, he, hejoined, htr, jsToStringVal]
    | some e =>
      have hfe : jsTruthy e = false := by simpa [jsTruthyOpt, he] using hf
      simp [apiErrorMessage, jsOr2, jsTruthyOpt, he, hfe, hejoined, htr, jsToStringVal]
  · intro hf hj
    cases he : getField data "error" with
    | none =>
      cases hee : errorsJoined data with
      | none => simp [apiErrorMessage, jsOr2, jsTruthyOpt, he, hee, jsToStringVal]
      | some j =>
        have hfj : jsTruthy j = false := by simpa [jsTruthyOpt, hee] using hj
        simp [apiErrorMessage, jsOr2, jsTruthyOpt, he, hee, hfj, jsToStringVal]
    | some e =>
      have hfe : jsTruthy e = false := by simpa [jsTruthyOpt, he] using hf
      cases hee : errorsJoined data with
      | none => simp [apiErrorMessage, jsOr2, jsTruthyOpt, he, hfe, hee, jsToStringVal]
      | some j =>
        have hfj : jsTruthy j = false := by simpa [jsTruthyOpt, hee] using hj
        simp [apiErrorMessage, jsOr2, jsTruthyOpt, he, hfe, hee, hfj, jsToStringVal]

/-- Counterexample to C6 as stated: for the body `{"error": ""}` the
`error` field is present, but the thrown message is the HTTP fallback,
not the (empty) `error` field. -/
theorem claim_C6_counterexample :
    getField (.obj [("error", .str "")]) "error" = some (.str "") ∧
    apiRequest false 400 (.obj [("error", .str "")]) =
      .error { message := "HTTP error! status: 400", status := 400,
               details := .obj [("error", .str "")] } ∧
    ("HTTP error! status: 400" : String) ≠ "" := by
  refine ⟨rfl, rfl, by decide⟩

/-- Witness for C6 at a concrete ok response. -/
theorem claim_C6_witness :
    apiRequest true 200 (.obj [("success", .bool true)]) =
      .ok (.obj [("success", .bool true)]) :=
  (claim_C6_api_request true 200 (.obj [("success", .bool true)])).1 rfl

/-- Witness for C9: a lowercase ASIN is uppercased and sent with
severity `high`. -/
theorem claim_C9_witness :
    handleAddAsin "b01abcdefg" = .requests
      [{ type := "asin", value := "B01ABCDEFG",
         reason := "手動で登録されたASIN", severity := "high" }] :=
  (claim_C9_blacklist_adds "b01abcdefg").2.2.1 (by decide)

/-- C1: for every non-empty listing list, `handleExport` downloads
exactly the CSV text the spec describes (BOM, the eight labels joined
by commas, one quoted-and-escaped row per listing in order, newline
separated, missing/null fields as `""`). -/
theorem claim_C1_products_export (ls : List Listing) (hne : ls ≠ []) :
    handleExport ls = some (specProductsCsv ls) := by
  have hE : ls.isEmpty = false := by
    cases ls with
    | nil => exact absurd rfl hne
    | cons a t => rfl
  have hcell : ∀ (l : Listing) (c : ExportCol),
      escapeCsv (some ((colValue l c).getD (.str ""))) = specCsvCell (colValue l c) := by
    intro l c
    cases c
    case asin => rfl
    case title => rfl
    case listing_price => rfl
    case status => rfl
    case profit =>
      cases hp : l.profit <;> simp [colValue, hp, escapeCsv, specCsvCell] <;> rfl
    case stock_status =>
      cases hp : l.stock_status <;> simp [colValue, hp, escapeCsv, specCsvCell] <;> rfl
    case jp_price =>
      cases hp : l.jp_price <;> simp [colValue, hp, escapeCsv, specCsvCell] <;> rfl
    case us_price =>
      cases hp : l.us_price <;> simp [colValue, hp, escapeCsv, specCsvCell] <;> rfl
  have hbody : exportCsvContent ls = jsJoin "\n"
      ((jsJoin "," ["ASIN", "商品名", "出品価格 (JPY)", "利益 (JPY)", "ステータス",
          "在庫ステータス", "仕入れ価格 (JPY)", "仕入れ価格 (USD)"]) ::
        ls.map (fun l => jsJoin "," (exportColKeys.map (fun c => specCsvCell (colValue l c))))) := by
    unfold exportCsvContent exportRow
    congr 1
    simp only [hcell]
    rfl
  simp only [handleExport, hE, Bool.false_eq_true, if_false, specProductsCsv, hbody]

/-- Witness for C1 at a one-listing catalog. -/
theorem claim_C1_witness :
    handleExport [⟨"1", "B000000001", "Widget", 100, some 5, "active",
      some "in_stock", some 80, some 1⟩] =
    some (specProductsCsv [⟨"1", "B000000001", "Widget", 100, some 5, "active",
      some "in_stock", some 80, some 1⟩]) :=
  claim_C1_products_export _ (List.cons_ne_nil _ _)

/-- C3 (amended): for any sane `JSON.parse` model, when the trimmed
text parses as JSON, `parseImportedData` returns the parsed array
itself, or a one-element list for an object — and also for `null`,
since JavaScript's `typeof null === "object"`; only when the parse
fails, or yields a string, number or boolean, is the text parsed as
CSV (first line as headers through the mapping table). -/
theorem claim_C3_import_json_first (jp : String → Option JVal)
    (hs : jsonSane jp) (text : String) :
    (∀ l, jp (jsTrimStr text) = some (.arr l) → parseImportedData jp text = l) ∧
    (∀ o, jp (jsTrimStr text) = some (.obj o) → parseImportedData jp text = [.obj o]) ∧
    (jp (jsTrimStr text) = some .null → parseImportedData jp text = [.null]) ∧
    (∀ v, jp (jsTrimStr text) = some v →
      (∀ l, v ≠ .arr l) → (∀ o, v ≠ .obj o) → v ≠ .null →
      parseImportedData jp text = parseCsv (jsTrimStr text)) ∧
    (jp (jsTrimStr text) = none → (jsTrimStr text).data.isEmpty = false →
      parseImportedData jp text = parseCsv (jsTrimStr text)) := by
  have hlead : ∀ v, jp (jsTrimStr text) = some v →
      (jsTrimStr text).data.isEmpty = false := by
    intro v hv
    have hok := hs _ _ hv
    cases hd : (jsTrimStr text).data with
    | nil => simp [jsonLeadOk, hd] at hok
    | cons c cs => simp [hd]
  refine ⟨?_, ?_, ?_, ?_, ?_⟩
  · intro l hv
    simp [parseImportedData, hlead _ hv, hv]
  · intro o hv
    simp [parseImportedData, hlead _ hv, hv]
  · intro hv
    simp [parseImportedData, hlead _ hv, hv]
  · intro v hv hna hno hnn
    cases v with
    | null => exact absurd rfl hnn
    | arr l => exact absurd rfl (hna l)
    | obj o => exact absurd rfl (hno o)
    | bool b => simp [parseImportedData, hlead _ hv, hv]
    | num n => simp [parseImportedData, hlead _ hv, hv]
    | str s => simp [parseImportedData, hlead _ hv, hv]
  · intro hv hne
    simp [parseImportedData, hne, hv]

/-- Counterexample to C3 as stated: on the input `null`, JSON parsing
succeeds with a value that is neither an array nor an object, yet the
code returns `[null]` instead of falling through to CSV parsing. -/
theorem claim_C3_counterexample :
    jsonSane jpNull ∧
    jpNull (jsTrimStr "null") = some JVal.null ∧
    (∀ l, JVal.null ≠ JVal.arr l) ∧ (∀ o, JVal.null ≠ JVal.obj o) ∧
    parseImportedData jpNull "null" = [JVal.null] ∧
    parseImportedData jpNull "null" ≠ parseCsv (jsTrimStr "null") := by
  refine ⟨?_, rfl, fun l => by simp, fun o => by simp, rfl,
    fun hcon => List.cons_ne_nil JVal.null [] hcon⟩
  intro s v h
  by_cases hn : s = "null"
  · subst hn; decide
  · simp [jpNull, hn] at h

/-- Witness for C3 (amended): the browser parse of `null` yields
`[null]`. -/
theorem claim_C3_witness :
    parseImportedData jpNull "null" = [JVal.null] := by
  have hs : jsonSane jpNull := by
    intro s v h
    by_cases hn : s = "null"
    · subst hn; decide
    · simp [jpNull, hn] at h
  exact (claim_C3_import_json_first jpNull hs "null").2.2.1 rfl

/-- A string is empty exactly when its character list is. -/
theorem strDataIsEmptyIff (s : String) : s.data.isEmpty = true ↔ s = "" := by
  cases s with
  | mk d =>
    cases d with
    | nil => simp
    | cons a l =>
      simp only [List.isEmpty_cons]
      constructor
      · intro h; exact absurd h (by simp)
      · intro h
        have := congrArg String.data h
        simp at this

/-- C4: a listing-create request is issued only when ASIN, title and
listing price are present.  In the dialog, `handleCreateListing` sends
nothing and records field errors exactly when one of the three trims to
empty; on the import path, `createPayload` returns `null` whenever the
record's `asin` or `title` is missing or trims to empty or its
`listing_price` is absent, a produced payload always has all three
present (price possibly the accepted numeric `0`), and a record whose
`listing_price` is the number `0` with non-empty `asin`/`title` does
produce a payload. -/
theorem claim_C4_create_requires_fields :
    (∀ fd : ListingFormData,
      (validateForm fd = [] ↔
        jsTrimStr fd.asin ≠ "" ∧ jsTrimStr fd.title ≠ "" ∧
          jsTrimStr fd.listing_price ≠ "") ∧
      (validateForm fd ≠ [] →
        handleCreateListing fd = .fieldErrors (validateForm fd)) ∧
      ((∃ p, handleCreateListing fd = .request p) ↔ validateForm fd = [])) ∧
    (∀ r : JVal, wellTypedRecord r →
      ((optTrimField r "asin" = none ∨ optTrimField r "asin" = some "" ∨
          optTrimField r "title" = none ∨ optTrimField r "title" = some "" ∨
          importListingPrice r = none) → createPayload r = none) ∧
      (∀ p, createPayload r = some p →
        (∃ a, optTrimField r "asin" = some a ∧ a ≠ "") ∧
        (∃ t, optTrimField r "title" = some t ∧ t ≠ "") ∧
        (jsTruthyOpt (importListingPrice r) = true ∨
          importListingPrice r = some (.num 0))) ∧
      ((∃ a, optTrimField r "asin" = some a ∧ a ≠ "") →
        (∃ t, optTrimField r "title" = some t ∧ t ≠ "") →
        importListingPrice r = some (.num 0) →
        createPayload r ≠ none ∧
          ∀ p, createPayload r = some p → p.listing_price = 0)) := by
  have hiff : ∀ t : String, t.data = [] ↔ t = "" := by
    intro t
    rw [← strDataIsEmptyIff]
    simp [List.isEmpty_iff]
  constructor
  · intro fd
    by_cases ha : jsTrimStr fd.asin = "" <;>
    by_cases ht : jsTrimStr fd.title = "" <;>
    by_cases hp : jsTrimStr fd.listing_price = "" <;>
    · refine ⟨?_, ?_, ?_⟩ <;>
        simp_all [validateForm, handleCreateListing, hiff,
          CreateOutcome.request.injEq]
  · intro r _
    refine ⟨?_, ?_, ?_⟩
    · intro hd
      rcases hd with h | h | h | h | h <;>
        simp [createPayload, h, jsTruthyOpt, isNumZero]
    · intro p hp
      by_cases ha : (optTrimField r "asin").getD "" = ""
      · exfalso; simp [createPayload, ha] at hp
      by_cases ht : (optTrimField r "title").getD "" = ""
      · exfalso; simp [createPayload, ht] at hp
      by_cases hlp : (!jsTruthyOpt (importListingPrice r) &&
          !isNumZero (importListingPrice r)) = true
      · exfalso; simp [createPayload, hlp] at hp
      refine ⟨?_, ?_, ?_⟩
      · cases haf : optTrimField r "asin" with
        | none => exact absurd (by simp [haf]) ha
        | some a => exact ⟨a, rfl, by simpa [haf] using ha⟩
      · cases htf : optTrimField r "title" with
        | none => exact absurd (by simp [htf]) ht
        | some t => exact ⟨t, rfl, by simpa [htf] using ht⟩
      · rw [Bool.and_eq_true, Bool.not_eq_true', Bool.not_eq_true'] at hlp
        rcases not_and_or.mp hlp with h | h
        · exact Or.inl (by simpa using h)
        · right
          have hz : isNumZero (importListingPrice r) = true := by simpa using h
          cases hv : importListingPrice r with
          | none => simp [hv, isNumZero] at hz
          | some v =>
            cases v <;> simp_all [isNumZero]
    · rintro ⟨a, haf, ha⟩ ⟨t, htf, ht⟩ hlp
      constructor
      · intro hnone
        simp [createPayload, haf, htf, ha, ht, hlp, jsTruthyOpt, jsTruthy,
          isNumZero] at hnone
      · intro p hp
        simp only [createPayload, haf, htf, hlp] at hp
        rw [if_neg] at hp
        · replace hp := hp.symm
          injection hp with hp
          subst hp
          simp [jsNumOr, jsNumberOfJVal]
        · simp [jsTruthyOpt, jsTruthy, isNumZero, ha, ht]

/-- Witness for C4: an empty-ASIN form is rejected, and an imported
record whose `listing_price` is the number `0` still yields a
payload. -/
theorem claim_C4_witness :
    validateForm ⟨"", "", "", "T", "100", "", "", "", "", "", "3000"⟩ ≠ [] ∧
    createPayload (.obj [("asin", .str "A1"), ("title", .str "T"),
      ("listing_price", .num 0)]) ≠ none := by
  constructor
  · intro he
    have h := (claim_C4_create_requires_fields.1
      ⟨"", "", "", "T", "100", "", "", "", "", "", "3000"⟩).1.mp he
    exact absurd h (by decide)
  · have hwt : wellTypedRecord (.obj [("asin", .str "A1"), ("title", .str "T"),
        ("listing_price", .num 0)]) := by
      intro k hk
      simp only [List.mem_cons, List.not_mem_nil, or_false] at hk
      rcases hk with rfl | rfl | rfl | rfl | rfl | rfl | rfl | rfl <;>
        first
          | exact Or.inl rfl
          | exact Or.inr (Or.inr ⟨_, rfl⟩)
    exact (((claim_C4_create_requires_fields.2 _ hwt).2.2)
      ⟨"A1", rfl, by decide⟩ ⟨"T", rfl, by decide⟩ rfl).1

/-- `filterMap` of a keep-or-drop function is a filter followed by a
map. -/
theorem filterMapIfChar {α β : Type} (p : α → Bool) (g : α → β) :
    ∀ l : List α,
      l.filterMap (fun a => if p a = true then none else some (g a)) =
        (l.filter (fun a => !p a)).map g := by
  intro l
  induction l with
  | nil => rfl
  | cons a t ih =>
    cases hp : p a <;> simp [List.filterMap_cons, List.filter_cons, hp, ih]

/-- `getD` past the end of the list gives the default. -/
theorem getDShort {α : Type} (d : α) :
    ∀ (l : List α) (i : Nat), l.length ≤ i → l.getD i d = d := by
  intro l
  induction l with
  | nil => intro i _; cases i <;> rfl
  | cons a t ih =>
    intro i hi
    cases i with
    | zero => simp at hi
    | succ j => simpa [List.getD] using ih j (by simpa using hi)

/-- The length of a `filterMap` counts the inputs the function keeps. -/
theorem filterMapLengthCountP {α β : Type} (f : α → Option β) :
    ∀ l : List α, (l.filterMap f).length = l.countP (fun a => (f a).isSome) := by
  intro l
  induction l with
  | nil => rfl
  | cons a t ih =>
    cases hf : f a <;>
      simp [List.filterMap_cons, hf, List.countP_cons, ih]

/-- Reading back the key just assigned. -/
theorem lookupRecSetKeySame (k v : String) :
    ∀ r : List (String × String), lookupRec (setKey r k v) k = some v := by
  intro r
  induction r with
  | nil => simp [setKey, lookupRec, List.find?]
  | cons p t ih =>
    by_cases h : p.1 == k
    · simp [setKey, h, lookupRec, List.find?]
    · simp only [setKey, h, Bool.false_eq_true, if_false]
      simp only [lookupRec, List.find?, h] at ih ⊢
      exact ih

/-- Assigning one key leaves every other key unchanged. -/
theorem lookupRecSetKeyOther (k k' v : String) (hne : (k' == k) = false) :
    ∀ r : List (String × String),
      lookupRec (setKey r k' v) k = lookupRec r k := by
  intro r
  induction r with
  | nil => simp [setKey, lookupRec, List.find?, hne]
  | cons p t ih =>
    by_cases h : p.1 == k'
    · have hpk : (p.1 == k) = false := by
        have h1 : p.1 = k' := by simpa using h
        subst h1
        exact hne
      simp [setKey, h, lookupRec, List.find?, hne, hpk]
    · simp only [setKey, h, Bool.false_eq_true, if_false]
      by_cases hpk : p.1 == k
      · simp [lookupRec, List.find?, hpk]
      · simp only [lookupRec, List.find?, hpk] at ih ⊢
        exact ih

/-- Headers not in the remaining list are untouched by the record
loop. -/
theorem lookupRecMkRecordAuxOut (k : String) :
    ∀ (hs : List String) (vs : List String) (r : List (String × String)),
      k ∉ hs → lookupRec (mkRecordAux hs vs r) k = lookupRec r k := by
  intro hs
  induction hs with
  | nil => intro vs r _; rfl
  | cons h t ih =>
    intro vs r hk
    simp only [List.mem_cons, not_or] at hk
    rw [mkRecordAux, ih _ _ hk.2, lookupRecSetKeyOther]
    simpa using fun hcon => hk.1 hcon.symm

/-- The record built by the header loop holds, under the `i`-th header,
the `i`-th value — the empty string when the row is too short
(`values[index] ?? ""`). -/
theorem lookupRecMkRecordAux :
    ∀ (hs : List String) (vs : List String) (r : List (String × String))
      (i : Nat) (hnd : hs.Nodup) (hi : i < hs.length),
      lookupRec (mkRecordAux hs vs r) hs[i] = some (vs.getD i "") := by
  intro hs
  induction hs with
  | nil => intro vs r i _ hi; exact absurd hi (by simp)
  | cons h t ih =>
    intro vs r i hnd hi
    rcases List.nodup_cons.mp hnd with ⟨hout, hnd'⟩
    cases i with
    | zero =>
      rw [show (h :: t)[0] = h from rfl, mkRecordAux,
        lookupRecMkRecordAuxOut h t vs.tail _ hout, lookupRecSetKeySame]
      cases vs <;> rfl
    | succ j =>
      have hj : j < t.length := by simpa using hi
      have hidx : (h :: t)[j + 1] = t[j] := rfl
      rw [hidx, mkRecordAux, ih vs.tail _ j hnd' hj]
      cases vs <;> simp [List.getD]

/-- C10: `parseImportedData` is total — it is a function into lists of
records.  An input that trims to empty yields `[]`; the CSV record loop
keeps exactly the data lines on which the field regular expression
finds a match, skipping the rest; and a row with fewer values than
headers fills every leftover header with the empty string. -/
theorem claim_C10_import_totality :
    (∀ (jp : String → Option JVal) (text : String),
      (jsTrimStr text).data = [] → parseImportedData jp text = []) ∧
    (∀ (headers : List String) (dataLines : List (List Char)),
      csvRecords headers dataLines =
        (dataLines.filter (fun line => !(matchTokens line).isEmpty)).map
          (fun line => mkRecordAux headers ((matchTokens line).map cleanupTok) []) ∧
      (csvRecords headers dataLines).length =
        dataLines.countP (fun line => !(matchTokens line).isEmpty)) ∧
    (∀ (headers : List String) (vs : List String) (i : Nat),
      headers.Nodup → ∀ hi : i < headers.length, vs.length ≤ i →
      lookupRec (mkRecordAux headers vs []) headers[i] = some "") := by
  refine ⟨?_, ?_, ?_⟩
  · intro jp text h
    simp [parseImportedData, h]
  · intro headers dataLines
    have hfc : dataLines.filter (fun line => !((matchTokens line).map cleanupTok).isEmpty) =
        dataLines.filter (fun line => !(matchTokens line).isEmpty) := by
      apply List.filter_congr
      intro line _
      cases matchTokens line <;> rfl
    constructor
    · have h1 := filterMapIfChar (fun line => ((matchTokens line).map cleanupTok).isEmpty)
        (fun line => mkRecordAux headers ((matchTokens line).map cleanupTok) []) dataLines
      rw [hfc] at h1
      exact h1
    · have h3 := filterMapLengthCountP
        (fun line => if ((matchTokens line).map cleanupTok).isEmpty = true then none
          else some (mkRecordAux headers ((matchTokens line).map cleanupTok) [])) dataLines
      refine h3.trans (List.countP_congr ?_)
      intro line _
      cases hm : matchTokens line <;> simp [hm]
  · intro headers vs i hnd hi hlen
    rw [lookupRecMkRecordAux headers vs [] i hnd hi, getDShort "" vs i hlen]

/-- Witness for C10: whitespace-only input imports nothing, and a row
shorter than its header list back-fills the empty string. -/
theorem claim_C10_witness :
    parseImportedData (fun _ => none) "   " = [] ∧
    lookupRec (mkRecordAux ["asin", "title"] ["A1"] []) "title" = some "" := by
  constructor
  · exact claim_C10_import_totality.1 (fun _ => none) "   " (by decide)
  · have h := claim_C10_import_totality.2.2 ["asin", "title"] ["A1"] 1
      (by decide) (by decide) (by decide)
    simpa using h

/-! ## Lemmas for C2: reading the export back. -/

/-- Doubling quotes is the identity on quote-free text. -/
theorem doubleQNoQuote : ∀ d : List Char, (∀ c ∈ d, c ≠ '"') → doubleQ d = d := by
  intro d
  induction d with
  | nil => intro _; rfl
  | cons c cs ih =>
    intro h
    have hc : (c == '"') = false := by
      simpa using h c (by simp)
    simp only [doubleQ, List.map_cons, hc, Bool.false_eq_true, if_false,
      List.flatten_cons, List.singleton_append]
    rw [show (cs.map (fun c => if c == '"' then ['"', '"'] else [c])).flatten =
      doubleQ cs from rfl, ih (fun x hx => h x (by simp [hx]))]

/-- Collapsing doubled quotes is the identity on quote-free text. -/
theorem undoubleNoQuote : ∀ d : List Char, (∀ c ∈ d, c ≠ '"') → undouble d = d := by
  intro d
  induction d using undouble.induct with
  | case1 => intro _; rfl
  | case2 c => intro _; rfl
  | case3 c1 c2 rest hq ih =>
    intro h
    simp only [Bool.and_eq_true, beq_iff_eq] at hq
    exact absurd hq.1 (h c1 (by simp))
  | case4 c1 c2 rest hq ih =>
    intro h
    simp only [undouble, hq, Bool.false_eq_true, if_false]
    rw [ih (fun x hx => h x (by simp at hx ⊢; tauto))]

/-- The full per-match cleanup undoes the quoting of a clean cell. -/
theorem cleanupQuote (s : String) (hs : cleanCell s) :
    cleanupTok (quoteData s.data) = s := by
  obtain ⟨hchar, htrim⟩ := hs
  have h1 : stripOuter (quoteData s.data) = s.data := by
    simp only [stripOuter, quoteData]
    rw [List.getLast?_concat]
    simp [List.dropLast_concat]
  rw [cleanupTok, h1, undoubleNoQuote s.data (fun c hc => (hchar c hc).2), htrim]

/-- The lookahead accepts an immediate comma. -/
theorem lookaheadComma (rest : List Char) : lookaheadOk (',' :: rest) = true := by
  have hws : jsWhitespaceChar ',' = false := by decide
  simp [lookaheadOk, List.dropWhile_cons, hws]

/-- Lazy `".*?"` matching on a clean body closed by a quote whose
lookahead holds. -/
theorem tryQuotedLem :
    ∀ (body rest acc : List Char),
      (∀ c ∈ body, isReDot c = true ∧ c ≠ '"') → lookaheadOk rest = true →
      tryQuoted acc (body ++ '"' :: rest) = some (acc ++ body, rest) := by
  intro body
  induction body with
  | nil =>
    intro rest acc _ hla
    simp [tryQuoted, hla]
  | cons c cs ih =>
    intro rest acc hc hla
    have h1 : (c == '"') = false := by
      simpa using (hc c (by simp)).2
    have h2 : isReDot c = true := (hc c (by simp)).1
    simp only [List.cons_append, tryQuoted, h1, Bool.false_eq_true, if_false, h2,
      if_true, List.append_eq]
    rw [ih rest (acc ++ [c]) (fun x hx => hc x (by simp [hx])) hla]
    simp

/-- The global regex scan of a row of quoted clean cells finds exactly
the quoted cells, in order (for any sufficient fuel). -/
theorem rowTokens :
    ∀ (ds : List (List Char)) (fuel : Nat), ds ≠ [] →
      (∀ d ∈ ds, ∀ c ∈ d, isReDot c = true ∧ c ≠ '"') →
      (joinData [','] (ds.map quoteData)).length ≤ fuel →
      matchTokensF fuel (joinData [','] (ds.map quoteData)) = ds.map quoteData := by
  intro ds
  induction ds with
  | nil => intro fuel h; exact absurd rfl h
  | cons d ds' ih =>
    intro fuel _ hcl hlen
    have hd : ∀ c ∈ d, isReDot c = true ∧ c ≠ '"' := hcl d (by simp)
    cases ds' with
    | nil =>
      simp only [List.map_cons, List.map_nil, joinData, quoteData] at hlen ⊢
      have hl2 : 2 ≤ fuel := by
        simp only [List.length_cons, List.length_append] at hlen
        omega
      cases fuel with
      | zero => omega
      | succ f =>
        have hqq : (('"' : Char) == '"') = true := by decide
        simp only [matchTokensF, hqq, if_true]
        rw [tryQuotedLem d [] [] hd rfl]
        simp [matchTokensF]
    | cons d2 ds'' =>
      have hjoin : joinData [','] ((d :: d2 :: ds'').map quoteData) =
          '"' :: (d ++ '"' :: ',' :: joinData [','] ((d2 :: ds'').map quoteData)) := by
        simp [joinData, quoteData, List.cons_append, List.append_assoc]
      rw [hjoin] at hlen ⊢
      have hlen2 : d.length +
          (joinData [','] ((d2 :: ds'').map quoteData)).length + 3 ≤ fuel := by
        simp only [List.length_cons, List.length_append] at hlen
        omega
      cases fuel with
      | zero => omega
      | succ f =>
        have hqq : (('"' : Char) == '"') = true := by decide
        simp only [matchTokensF, hqq, if_true]
        rw [tryQuotedLem d (',' :: joinData [','] ((d2 :: ds'').map quoteData)) [] hd
          (lookaheadComma _)]
        simp only [List.nil_append]
        cases f with
        | zero => omega
        | succ f2 =>
          have hcomma1 : ((',' : Char) == '"') = false := by decide
          have hcomma2 : ((',' : Char) == ',' || jsWhitespaceChar ',') = true := by decide
          simp only [matchTokensF, hcomma1, Bool.false_eq_true, if_false, hcomma2,
            if_true]
          rw [ih f2 (List.cons_ne_nil _ _) (fun x hx => hcl x (by simp at hx ⊢; tauto))
            (by omega)]
          simp [quoteData]

/-- A bare `'\n'` always opens a new split segment. -/
theorem splitRNLNL : ∀ rest : List Char, splitRNL ('\n' :: rest) = [] :: splitRNL rest := by
  intro rest
  cases rest with
  | nil => rfl
  | cons r rs => simp [splitRNL]

/-- A line without separators splits into itself. -/
theorem splitRNLNoSep : ∀ x : List Char,
    (∀ c ∈ x, c ≠ '\n' ∧ c ≠ '\r') → splitRNL x = [x] := by
  intro x
  induction x with
  | nil => intro _; rfl
  | cons c cs ih =>
    intro h
    have hc1 : (c == '\n') = false := by simpa using (h c (by simp)).1
    have hc2 : (c == '\r') = false := by simpa using (h c (by simp)).2
    cases cs with
    | nil => simp [splitRNL, hc1]
    | cons c2 rest =>
      rw [splitRNL, ih (fun a ha => h a (by simp at ha ⊢; tauto))]
      simp [hc1, hc2]

/-- Splitting off the first separator-free line. -/
theorem splitRNLApp : ∀ (x rest : List Char),
    (∀ c ∈ x, c ≠ '\n' ∧ c ≠ '\r') →
    splitRNL (x ++ '\n' :: rest) = x :: splitRNL rest := by
  intro x
  induction x with
  | nil =>
    intro rest _
    simpa using splitRNLNL rest
  | cons c cs ih =>
    intro rest h
    have hc1 : (c == '\n') = false := by simpa using (h c (by simp)).1
    have hc2 : (c == '\r') = false := by simpa using (h c (by simp)).2
    cases cs with
    | nil =>
      simp only [List.nil_append, List.cons_append]
      rw [splitRNL]
      simp only [hc1, Bool.false_eq_true, if_false, hc2, Bool.false_and]
      rw [splitRNLNL rest]
    | cons c2 cs2 =>
      have harg : (c :: c2 :: cs2) ++ '\n' :: rest =
          c :: c2 :: (cs2 ++ '\n' :: rest) := rfl
      rw [harg, splitRNL,
        show c2 :: (cs2 ++ '\n' :: rest) = (c2 :: cs2) ++ '\n' :: rest from rfl,
        ih rest (fun a ha => h a (by simp at ha ⊢; tauto))]
      simp [hc1, hc2]

/-- Joining separator-free lines with `'\n'` and splitting again is the
identity. -/
theorem splitRNLJoin : ∀ L : List (List Char), L ≠ [] →
    (∀ x ∈ L, ∀ c ∈ x, c ≠ '\n' ∧ c ≠ '\r') →
    splitRNL (joinData ['\n'] L) = L := by
  intro L
  induction L with
  | nil => intro h; exact absurd rfl h
  | cons x L' ih =>
    intro _ h
    cases L' with
    | nil => simpa [joinData] using splitRNLNoSep x (h x (by simp))
    | cons y L'' =>
      have hre : x ++ ['\n'] ++ joinData ['\n'] (y :: L'') =
          x ++ '\n' :: joinData ['\n'] (y :: L'') := by
        simp [List.append_assoc]
      rw [joinData, hre, splitRNLApp x _ (h x (by simp)),
        ih (List.cons_ne_nil _ _) (fun z hz => h z (by simp at hz ⊢; tauto))]

/-- A trimmed list headed by a non-whitespace character is non-empty. -/
theorem trimConsNe (c : Char) (r : List Char) (hc : jsWhitespaceChar c = false) :
    jsTrimList (c :: r) ≠ [] := by
  intro h
  simp only [jsTrimList, List.dropWhile_cons, hc, Bool.false_eq_true, if_false] at h
  rw [List.reverse_eq_nil_iff] at h
  have hall := List.dropWhile_eq_nil_iff.mp h c (by simp)
  exact absurd hall (by simp [hc])

/-- `trim` is the identity when both ends are non-whitespace. -/
theorem trimEqSelf (a : Char) (m : List Char) (b : Char)
    (ha : jsWhitespaceChar a = false) (hb : jsWhitespaceChar b = false) :
    jsTrimList (a :: (m ++ [b])) = a :: (m ++ [b]) := by
  have hrev : (a :: (m ++ [b])).reverse = b :: (m.reverse ++ [a]) := by
    simp
  simp only [jsTrimList, List.dropWhile_cons, ha, Bool.false_eq_true, if_false]
  rw [hrev]
  simp only [List.dropWhile_cons, hb, Bool.false_eq_true, if_false]
  rw [← hrev, List.reverse_reverse]

/-- The join of a list ending in `x` ends in `x`. -/
theorem joinDataLast : ∀ (sep : List Char) (L : List (List Char)) (x : List Char),
    ∃ p, joinData sep (L ++ [x]) = p ++ x := by
  intro sep L
  induction L with
  | nil => intro x; exact ⟨[], rfl⟩
  | cons y L' ih =>
    intro x
    cases hL : L' ++ [x] with
    | nil => exact absurd hL (by simp)
    | cons z zs =>
      obtain ⟨p, hp⟩ := ih x
      refine ⟨y ++ sep ++ p, ?_⟩
      rw [show (y :: L') ++ [x] = y :: (L' ++ [x]) from rfl, hL, joinData, ← hL, hp]
      simp [List.append_assoc]

/-- Every character of a join comes from the separator or a member. -/
theorem memJoinData : ∀ (sep : List Char) (L : List (List Char)) (c : Char),
    c ∈ joinData sep L → c ∈ sep ∨ ∃ x ∈ L, c ∈ x := by
  intro sep L
  induction L with
  | nil => intro c h; simp [joinData] at h
  | cons x L' ih =>
    intro c h
    cases L' with
    | nil =>
      simp only [joinData] at h
      exact Or.inr ⟨x, by simp, h⟩
    | cons y L'' =>
      rw [joinData] at h
      simp only [List.mem_append] at h
      rcases h with (h | h) | h
      · exact Or.inr ⟨x, by simp, h⟩
      · exact Or.inl h
      · rcases ih c h with h | ⟨z, hz, hcz⟩
        · exact Or.inl h
        · exact Or.inr ⟨z, by simp at hz ⊢; tauto, hcz⟩

/-- A `.`-matchable character is not a line terminator. -/
theorem reDotNoNL (c : Char) (h : isReDot c = true) : c ≠ '\n' ∧ c ≠ '\r' := by
  constructor <;> (rintro rfl; simp [isReDot] at h)

/-- An exported row, at the character level, is the comma join of the
quoted cell strings. -/
theorem rowDataEq (l : Listing)
    (hclean : ∀ c ∈ exportColKeys, cleanCell (cellString l c)) :
    (exportRow l).data =
      joinData [','] ((exportColKeys.map (fun c => (cellString l c).data)).map quoteData) := by
  have hesc : ∀ w : JVal, (∀ ch ∈ (jsToStringVal w).data, ch ≠ '"') → w ≠ .null →
      (escapeCsv (some w)).data = quoteData (jsToStringVal w).data := by
    intro w hw hnn
    cases w with
    | null => exact absurd rfl hnn
    | bool b => simp [escapeCsv, quoteData, doubleQNoQuote _ hw]
    | num n => simp [escapeCsv, quoteData, doubleQNoQuote _ hw]
    | str s => simp [escapeCsv, quoteData, doubleQNoQuote _ hw]
    | arr a => simp [escapeCsv, quoteData, doubleQNoQuote _ hw]
    | obj o => simp [escapeCsv, quoteData, doubleQNoQuote _ hw]
  have hcol : ∀ c ∈ exportColKeys,
      (escapeCsv (some ((colValue l c).getD (.str "")))).data =
        quoteData (cellString l c).data := by
    intro c hc
    have hnq : ∀ ch ∈ (cellString l c).data, ch ≠ '"' :=
      fun ch hch => ((hclean c hc).1 ch hch).2
    have hnn : (colValue l c).getD (.str "") ≠ JVal.null := by
      cases c
      case asin => simp [colValue]
      case title => simp [colValue]
      case listing_price => simp [colValue]
      case status => simp [colValue]
      case profit => simp only [colValue]; cases l.profit <;> simp
      case stock_status => simp only [colValue]; cases l.stock_status <;> simp
      case jp_price => simp only [colValue]; cases l.jp_price <;> simp
      case us_price => simp only [colValue]; cases l.us_price <;> simp
    exact hesc _ hnq hnn
  simp only [exportRow, jsJoin, List.map_map]
  congr 1
  refine List.map_congr_left ?_
  intro c hc
  simpa using hcol c hc

/-- The record loop applied to exported rows produces exactly the
expected records (headers as read back from the exported header
line). -/
theorem csvRecordsRows : ∀ ls : List Listing,
    (∀ l ∈ ls, ∀ c ∈ exportColKeys, cleanCell (cellString l c)) →
    csvRecords ["asin", "title", "listing_price", "利益 (JPY)", "status",
        "stock_status", "jp_price", "us_price"]
      (ls.map (fun l => (exportRow l).data)) = ls.map expectedRecord := by
  intro ls
  induction ls with
  | nil => intro _; rfl
  | cons l ls' ih =>
    intro hclean
    have hcl : ∀ c ∈ exportColKeys, cleanCell (cellString l c) := hclean l (by simp)
    have htok : matchTokens (exportRow l).data =
        (exportColKeys.map (fun c => (cellString l c).data)).map quoteData := by
      rw [matchTokens, rowDataEq l hcl]
      refine rowTokens _ _ (by simp [exportColKeys]) ?_ (le_refl _)
      intro d hd c hc
      obtain ⟨col, hcol, rfl⟩ := List.mem_map.mp hd
      exact (hcl col hcol).1 c hc
    have hvals : (matchTokens (exportRow l).data).map cleanupTok =
        exportColKeys.map (fun c => cellString l c) := by
      rw [htok, List.map_map, List.map_map]
      refine List.map_congr_left ?_
      intro c hc
      simpa using cleanupQuote (cellString l c) (hcl c hc)
    have hfa : (if ((matchTokens (exportRow l).data).map cleanupTok).isEmpty = true
        then (none : Option (List (String × String)))
        else some (mkRecordAux ["asin", "title", "listing_price", "利益 (JPY)",
          "status", "stock_status", "jp_price", "us_price"]
          ((matchTokens (exportRow l).data).map cleanupTok) [])) =
        some (expectedRecord l) := by
      rw [hvals]
      rfl
    simp only [List.map_cons, csvRecords, List.filterMap_cons] at ih ⊢
    rw [hfa, ih (fun x hx => hclean x (by simp [hx]))]

/-- A list that both starts with `'A'` and ends with `'"'` has the
middle shape needed by the trim lemma. -/
theorem shapeCombine (T Q b : List Char) (h1 : b = 'A' :: T)
    (h2 : b = Q ++ ['"']) : ∃ mid, b = 'A' :: (mid ++ ['"']) := by
  cases Q with
  | nil =>
    rw [h1] at h2
    simp at h2
  | cons q0 qr =>
    rw [h1, List.cons_append] at h2
    injection h2 with hq hT
    exact ⟨qr, by rw [h1, hT]⟩

/-- A comma join headed by a quoted cell starts with a quote. -/
theorem joinHeadQuote (sep d : List Char) (rest : List (List Char)) :
    ∃ z, joinData sep (quoteData d :: rest) = '"' :: z := by
  cases rest with
  | nil => exact ⟨d ++ ['"'], rfl⟩
  | cons y ys =>
    exact ⟨(d ++ ['"']) ++ sep ++ joinData sep (y :: ys),
      by simp [joinData, quoteData, List.cons_append, List.append_assoc]⟩

/-- C2 (amended): round-trip of the export through the import.  For
any sane `JSON.parse` model and any non-empty listing list whose cell
strings are clean (no quote, no line terminator, trim-invariant),
parsing the exported CSV text (without its BOM) yields exactly one
record per listing, in order; each record stores the exported string of
each column under the original field name — except the profit column,
whose label `利益 (JPY)` is absent from the header-mapping table and is
kept verbatim as the key. -/
theorem claim_C2_export_import_roundtrip
    (jp : String → Option JVal) (hjp : jsonSane jp)
    (ls : List Listing) (hne : ls ≠ [])
    (hclean : ∀ l ∈ ls, ∀ c ∈ exportColKeys, cleanCell (cellString l c)) :
    parseImportedData jp (exportCsvContent ls) =
      ls.map (fun l => recordToJVal (expectedRecord l)) := by
  have hdata : (exportCsvContent ls).data =
      joinData ['\n'] (exportHeader.data :: ls.map (fun l => (exportRow l).data)) := by
    simp only [exportCsvContent, jsJoin, List.map_cons, List.map_map]
    rfl
  have hrowshape : ∀ l ∈ ls, ∃ z, (exportRow l).data = '"' :: z := by
    intro l hl
    rw [rowDataEq l (hclean l hl),
      show exportColKeys = ExportCol.asin :: [ExportCol.title, ExportCol.listing_price,
        ExportCol.profit, ExportCol.status, ExportCol.stock_status, ExportCol.jp_price,
        ExportCol.us_price] from rfl]
    simp only [List.map_cons]
    exact joinHeadQuote _ _ _
  have hrowlast : ∀ l ∈ ls, ∃ p, (exportRow l).data = p ++ ['"'] := by
    intro l hl
    rw [rowDataEq l (hclean l hl),
      show exportColKeys = [ExportCol.asin, ExportCol.title, ExportCol.listing_price,
        ExportCol.profit, ExportCol.status, ExportCol.stock_status, ExportCol.jp_price]
        ++ [ExportCol.us_price] from rfl,
      List.map_append, List.map_append]
    obtain ⟨p, hp⟩ := joinDataLast [','] ((([ExportCol.asin, ExportCol.title,
      ExportCol.listing_price, ExportCol.profit, ExportCol.status,
      ExportCol.stock_status, ExportCol.jp_price].map
        (fun c => (cellString l c).data)).map quoteData))
      (quoteData (cellString l ExportCol.us_price).data)
    simp only [List.map_cons, List.map_nil] at hp ⊢
    rw [hp]
    exact ⟨p ++ '"' :: (cellString l ExportCol.us_price).data,
      by simp [quoteData, List.append_assoc]⟩
  obtain ⟨lsInit, lsLast, hlsdecomp⟩ : ∃ i la, ls = i ++ [la] :=
    ⟨ls.dropLast, ls.getLast hne, (List.dropLast_append_getLast hne).symm⟩
  have hlastmem : lsLast ∈ ls := by rw [hlsdecomp]; simp
  have hA : ∃ T, (exportCsvContent ls).data = 'A' :: T := by
    rw [hdata]
    cases ls with
    | nil => exact absurd rfl hne
    | cons l0 ls0 =>
      simp only [List.map_cons]
      rw [joinData]
      obtain ⟨t, ht⟩ : ∃ t, exportHeader.data = 'A' :: t := ⟨_, rfl⟩
      rw [ht]
      exact ⟨t ++ ['\n'] ++ joinData ['\n'] ((exportRow l0).data ::
        ls0.map (fun l => (exportRow l).data)),
        by simp [List.cons_append, List.append_assoc]⟩
  have hQ : ∃ Q, (exportCsvContent ls).data = Q ++ ['"'] := by
    rw [hdata]
    have hmaps : exportHeader.data :: ls.map (fun l => (exportRow l).data) =
        (exportHeader.data :: lsInit.map (fun l => (exportRow l).data)) ++
          [(exportRow lsLast).data] := by
      rw [hlsdecomp]; simp
    rw [hmaps]
    obtain ⟨q, hq⟩ := joinDataLast ['\n']
      (exportHeader.data :: lsInit.map (fun l => (exportRow l).data))
      ((exportRow lsLast).data)
    obtain ⟨p, hp⟩ := hrowlast lsLast hlastmem
    rw [hq, hp]
    exact ⟨q ++ p, by simp [List.append_assoc]⟩
  obtain ⟨T, hT⟩ := hA
  obtain ⟨Q, hQ'⟩ := hQ
  obtain ⟨mid, hmid⟩ := shapeCombine T Q _ hT hQ'
  have htrim : jsTrimStr (exportCsvContent ls) = exportCsvContent ls := by
    show (⟨jsTrimList (exportCsvContent ls).data⟩ : String) = exportCsvContent ls
    rw [hmid, trimEqSelf 'A' mid '"' (by decide) (by decide), ← hmid]
  have hempty : (jsTrimStr (exportCsvContent ls)).data.isEmpty = false := by
    rw [htrim, hmid]
    rfl
  have hjpnone : jp (jsTrimStr (exportCsvContent ls)) = none := by
    rw [htrim]
    cases hres : jp (exportCsvContent ls) with
    | none => rfl
    | some v =>
      exfalso
      have hok := hjp _ _ hres
      have hlead : jsonLeadOk (exportCsvContent ls) = false := by
        unfold jsonLeadOk
        rw [hmid, List.dropWhile_cons]
        have hAc : (('A' : Char) == ' ' || ('A' : Char) == '\t' ||
            ('A' : Char) == '\n' || ('A' : Char) == '\r') = false := by decide
        simp only [hAc, Bool.false_eq_true, if_false]
        decide
      rw [hlead] at hok
      exact absurd hok (by simp)
  have hlineclean : ∀ x ∈ exportHeader.data :: ls.map (fun l => (exportRow l).data),
      ∀ c ∈ x, c ≠ '\n' ∧ c ≠ '\r' := by
    intro x hx
    rcases List.mem_cons.mp hx with rfl | hx
    · decide
    · obtain ⟨l, hl, rfl⟩ := List.mem_map.mp hx
      intro c hc
      rw [rowDataEq l (hclean l hl)] at hc
      rcases memJoinData _ _ c hc with hsep | ⟨cell, hcellmem, hccell⟩
      · simp only [List.mem_singleton] at hsep
        subst hsep
        decide
      · obtain ⟨d, hd, rfl⟩ := List.mem_map.mp hcellmem
        obtain ⟨col, hcol, rfl⟩ := List.mem_map.mp hd
        simp only [quoteData, List.mem_cons, List.mem_append,
          List.mem_singleton, List.not_mem_nil, or_false] at hccell
        rcases hccell with rfl | hin | rfl
        · decide
        · exact reDotNoNL c (((hclean l hl) col hcol).1 c hin).1
        · decide
  have hsplit : splitRNL (exportCsvContent ls).data =
      exportHeader.data :: ls.map (fun l => (exportRow l).data) := by
    rw [hdata]
    exact splitRNLJoin _ (List.cons_ne_nil _ _) hlineclean
  have hfilter : (exportHeader.data :: ls.map (fun l => (exportRow l).data)).filter
      (fun line => !(jsTrimList line).isEmpty) =
      exportHeader.data :: ls.map (fun l => (exportRow l).data) := by
    rw [List.filter_eq_self]
    intro x hx
    rcases List.mem_cons.mp hx with rfl | hx
    · decide
    · obtain ⟨l, hl, rfl⟩ := List.mem_map.mp hx
      obtain ⟨z, hz⟩ := hrowshape l hl
      rw [hz]
      have hnn := trimConsNe '"' z (by decide)
      cases hres : jsTrimList ('"' :: z) with
      | nil => exact absurd hres hnn
      | cons a t => simp
  have hheaders : (splitComma exportHeader.data).map
      (fun hc => mapHeader ⟨jsTrimList (stripOuter hc)⟩) =
      ["asin", "title", "listing_price", "利益 (JPY)", "status", "stock_status",
       "jp_price", "us_price"] := by decide
  unfold parseImportedData
  simp only [hempty, Bool.false_eq_true, if_false, hjpnone]
  rw [htrim]
  unfold parseCsv
  rw [hsplit, hfilter]
  simp only [hheaders]
  rw [csvRecordsRows ls hclean, List.map_map]
  rfl

/-- Counterexample to C2 as stated: reading back the export of a
single listing (with a parse model that, like the browser's, rejects
the non-JSON CSV text) yields a record that stores the profit value
under the raw label `利益 (JPY)` and has no `profit` key at all. -/
theorem claim_C2_counterexample :
    jsonSane (fun _ => none) ∧
    parseImportedData (fun _ => none)
      (exportCsvContent [⟨"1", "B000000001", "X", 100, some 5, "active",
        some "in_stock", some 80, some 1⟩]) =
      [recordToJVal [("asin", "B000000001"), ("title", "X"),
        ("listing_price", "100"), ("利益 (JPY)", "5"), ("status", "active"),
        ("stock_status", "in_stock"), ("jp_price", "80"), ("us_price", "1")]] ∧
    lookupRec [("asin", "B000000001"), ("title", "X"), ("listing_price", "100"),
      ("利益 (JPY)", "5"), ("status", "active"), ("stock_status", "in_stock"),
      ("jp_price", "80"), ("us_price", "1")] "profit" = none ∧
    lookupRec [("asin", "B000000001"), ("title", "X"), ("listing_price", "100"),
      ("利益 (JPY)", "5"), ("status", "active"), ("stock_status", "in_stock"),
      ("jp_price", "80"), ("us_price", "1")] "利益 (JPY)" = some "5" := by
  refine ⟨?_, rfl, rfl, rfl⟩
  intro s v h
  exact nomatch h

/-- Witness for C2 (amended) on a concrete one-listing catalog. -/
theorem claim_C2_witness :
    parseImportedData (fun _ => none)
      (exportCsvContent [⟨"1", "B000000001", "X", 100, some 5, "active",
        some "in_stock", some 80, some 1⟩]) =
      [(⟨"1", "B000000001", "X", 100, some 5, "active",
        some "in_stock", some 80, some 1⟩ : Listing)].map
        (fun l => recordToJVal (expectedRecord l)) :=
  claim_C2_export_import_roundtrip (fun _ => none)
    (by intro s v h; exact nomatch h)
    _ (List.cons_ne_nil _ _) (by decide)

end AmazonAutopilot
